import Mathlib

/-!
Verification development for the `binspan` structural archive decoder
(ZIP / ZIP64 / ustar TAR).  The Rust sources (`src/decode.rs`, `src/zip.rs`,
`src/tar2.rs`) are shallowly embedded below: `bytes::Bytes` cursors become a
`Bytes` structure over a `List Nat` backing buffer, fallible decoders return
`Except Error` results paired with their final mutable state, and a Rust
panic (an `unwrap` on `None`, a `checked_sub` underflow, or an out-of-range
`Bytes::slice`) is modelled by an outer `Option` layer whose `none` means
"the process aborts".  Machine integers are modelled as `Nat` with explicit
`% 2 ^ w` at the points where the source performs a narrowing cast.
-/

/-- Model of `bytes::Bytes`: a cheaply cloneable view `{buffer, start, len}`
over an immutable backing buffer (`src/decode.rs` uses `bytes::Bytes`). -/
structure Bytes where
  buf : List Nat
  start : Nat
  len : Nat
deriving DecidableEq

/-- The byte content a cursor denotes: `len` bytes of `buf` from `start`. -/
def Bytes.content (b : Bytes) : List Nat :=
  (b.buf.drop b.start).take b.len

/-- Model of `Bytes::is_empty`. -/
def Bytes.isEmpty (b : Bytes) : Bool :=
  b.len == 0

/-- Model of `Bytes::split_off(at)`: the first component is what `self`
becomes (the prefix `[0, at)`), the second is the returned suffix. -/
def Bytes.splitOff (b : Bytes) (n : Nat) : Bytes × Bytes :=
  (⟨b.buf, b.start, n⟩, ⟨b.buf, b.start + n, b.len - n⟩)

/-- Model of `Bytes::truncate(n)`: shortens the view to at most `n` bytes. -/
def Bytes.truncate (b : Bytes) (n : Nat) : Bytes :=
  ⟨b.buf, b.start, min b.len n⟩

/-- Model of `Bytes::starts_with`: content comparison of the prefix. -/
def Bytes.startsWith (b : Bytes) (s : List Nat) : Bool :=
  s.isPrefixOf b.content

/-- Model of `Bytes::slice(lo..)`, which panics when `lo > len`;
the panic is modelled by `none` (used by `decode_zip` for `lf_slice`). -/
def Bytes.sliceFrom (b : Bytes) (lo : Nat) : Option Bytes :=
  if lo > b.len then none else some ⟨b.buf, b.start + lo, b.len - lo⟩

/-- Model of `decode::Index`: one breadcrumb of an error path. -/
inductive Index : Type where
  | str : String → Index
  | int : Nat → Index
deriving DecidableEq

/-- Model of `decode::Error`: offending position, breadcrumb path, message. -/
structure Error where
  position : Bytes
  path : List Index
  msg : String
deriving DecidableEq

/-- Model of `Error::new`. -/
def Error.new (position : Bytes) (msg : String) : Error :=
  ⟨position, [], msg⟩

/-- Model of `Error::with_index`: pushes a breadcrumb onto the path. -/
def Error.with_index (e : Error) (i : Index) : Error :=
  { e with path := e.path ++ [i] }

/-- Model of `decode::Meta`.  The `format` field of the source (an optional
function pointer used only for pretty-printing) is not modelled; no claim
mentions it. -/
structure Meta where
  bytes : Bytes
  error : Option Error
  description : Option String
deriving DecidableEq

/-- Model of `impl From<Bytes> for Meta`. -/
def Meta.fromBytes (bytes : Bytes) : Meta :=
  ⟨bytes, none, none⟩

/-- Model of `decode::Val`, the annotated value tree.  A Rust
`Lazy(Rc<LazyCell<Val, Box<dyn FnOnce() -> Val>>>)` thunk becomes a plain
function `Unit → Val`; forcing the cell is application to `()`. -/
inductive Val : Type where
  | bool : Bool → Val
  | u8 : Nat → Val
  | u16 : Nat → Val
  | u32 : Nat → Val
  | u64 : Nat → Val
  | raw : Bool → Val
  | str : Bytes → Val
  | arr : List (Meta × Val) → Val
  | obj : List (String × Meta × Val) → Val
  | lazy : (Unit → Val) → Val

/-- Model of `impl Default for Val`: `Raw { gap: false }`. -/
def Val.default : Val :=
  Val.raw false

mutual

/-- Model of `Val::eval`: force every `Lazy` encountered, depth first. -/
def Val.eval : Val → Val
  | .lazy l => Val.eval (l ())
  | .arr a => .arr (evalElems a)
  | .obj o => .obj (evalFields o)
  | v => v

/-- `Val::eval` mapped over the elements of an `Arr` (the `fa` closure). -/
def evalElems : List (Meta × Val) → List (Meta × Val)
  | [] => []
  | (m, v) :: t => (m, Val.eval v) :: evalElems t

/-- `Val::eval` mapped over the entries of an `Obj` (the `fo` closure). -/
def evalFields : List (String × Meta × Val) → List (String × Meta × Val)
  | [] => []
  | (s, m, v) :: t => (s, m, Val.eval v) :: evalFields t

end

mutual

/-- Decides that a tree contains no `Lazy` variant. -/
def noLazy : Val → Bool
  | .lazy _ => false
  | .arr a => noLazyElems a
  | .obj o => noLazyFields o
  | _ => true

/-- `noLazy` over the elements of an `Arr`. -/
def noLazyElems : List (Meta × Val) → Bool
  | [] => true
  | (_, v) :: t => noLazy v && noLazyElems t

/-- `noLazy` over the entries of an `Obj`. -/
def noLazyFields : List (String × Meta × Val) → Bool
  | [] => true
  | (_, _, v) :: t => noLazy v && noLazyFields t

end

/-- Model of `decode::Obj`: an ordered list of named, annotated children. -/
abbrev Obj : Type := List (String × Meta × Val)

/-- Model of `decode::Arr`: an ordered list of annotated elements. -/
abbrev Arr : Type := List (Meta × Val)

/-- Model of `Obj::add_mut(field, m, f)`.  A placeholder child
`(field, m, Val::default())` is pushed, then the sub-parser `f` runs on the
placeholder's `Meta` and `Val` (its other captured state `σ` is threaded
through explicitly since Lean closures cannot mutate).  On failure the child
stays with the state `f` left, its `Meta` records the error, and the error is
re-raised with the field name pushed on its path.  An inner Rust panic is
modelled by `f` returning `none`. -/
def Obj.add_mut {σ α : Type} (o : Obj) (field : String) (m : Meta)
    (f : Meta → Val → Option (σ × Meta × Val × Except Error α)) :
    Option (σ × Obj × Except Error α) :=
  match f m Val.default with
  | none => none
  | some (s, m', v', .ok y) => some (s, o ++ [(field, m', v')], .ok y)
  | some (s, m', v', .error e) =>
    some (s, o ++ [(field, { m' with error := some e }, v')],
      .error (e.with_index (.str field)))

/-- Model of `Obj::add(field, r)`: on success push the decoded child, on
failure push nothing and re-raise with the field name as breadcrumb. -/
def Obj.add {α : Type} (o : Obj) (field : String)
    (r : Except Error (Meta × Val × α)) : Obj × Except Error α :=
  match r with
  | .error e => (o, .error (e.with_index (.str field)))
  | .ok (m, v, y) => (o ++ [(field, m, v)], .ok y)

/-- Model of `Arr::add_mut(m, f)`: like `Obj::add_mut` with the element's
index (the length before the push) as the breadcrumb. -/
def Arr.add_mut {σ α : Type} (a : Arr) (m : Meta)
    (f : Meta → Val → Option (σ × Meta × Val × Except Error α)) :
    Option (σ × Arr × Except Error α) :=
  match f m Val.default with
  | none => none
  | some (s, m', v', .ok y) => some (s, a ++ [(m', v')], .ok y)
  | some (s, m', v', .error e) =>
    some (s, a ++ [({ m' with error := some e }, v')],
      .error (e.with_index (.int a.length)))

/-- Model of `decode::try_split_off(b, at)`: on success `b` becomes the
prefix and the suffix is returned; errors with "expected N bytes" and leave
`b` unchanged. -/
def try_split_off (b : Bytes) (n : Nat) : Bytes × Except Error Bytes :=
  if n > b.len then
    (b, .error (Error.new b ("expected " ++ toString n ++ " bytes")))
  else
    ((b.splitOff n).1, .ok (b.splitOff n).2)

/-- Model of `decode::take(left, n)`: consume and return the length-`n`
prefix, leaving the cursor at the remaining suffix
(`mem::replace(left, right)` on the result of `try_split_off`). -/
def take (b : Bytes) (n : Nat) : Bytes × Except Error Bytes :=
  match try_split_off b n with
  | (b', .error e) => (b', .error e)
  | (bp, .ok right) => (right, .ok bp)

/-- Model of `decode::try_slice(b, lo..hi)` (after `to_range`): error with
"expected N bytes" where `N = max lo hi` when the range exceeds the view,
otherwise a non-consuming sub-view. -/
def try_slice (b : Bytes) (lo hi : Nat) : Except Error Bytes :=
  if max lo hi > b.len then
    .error (Error.new b ("expected " ++ toString (max lo hi) ++ " bytes"))
  else
    .ok ⟨b.buf, b.start + lo, hi - lo⟩

/-- Model of `decode::consumed(b, f)`: run `f`, and on success also return
the prefix of the original cursor that `f` consumed
(`start.truncate(start.len() - b.len())`). -/
def consumed {α : Type} (b : Bytes) (f : Bytes → Bytes × Except Error α) :
    Bytes × Except Error (Bytes × α) :=
  match f b with
  | (b', .error e) => (b', .error e)
  | (b', .ok y) => (b', .ok (b.truncate (b.len - b'.len), y))

/-- Model of `decode::consume(b, to, f)`: run `f` and on success set the
`Meta`'s byte span to the range `f` consumed (the `?` in the source
propagates a failure before the assignment to `to.bytes`). -/
def consume {α : Type} (b : Bytes) (m : Meta)
    (f : Bytes → Bytes × Except Error α) : Bytes × Meta × Except Error α :=
  match consumed b f with
  | (b', .error e) => (b', m, .error e)
  | (b', .ok (c, y)) => (b', { m with bytes := c }, .ok y)

/-- Little-endian value of a byte list (`from_le_bytes`). -/
def leVal (l : List Nat) : Nat :=
  l.foldr (fun x acc => x + 256 * acc) 0

/-- Model of the `decode_int!` macro body: take `width` bytes and decode
them as a little-endian integer tagged by `mk`. -/
def decode_int (width : Nat) (mk : Nat → Val) (b : Bytes) :
    Bytes × Except Error (Meta × Val × Nat) :=
  match take b width with
  | (b', .error e) => (b', .error e)
  | (b', .ok bb) => (b', .ok (Meta.fromBytes bb, mk (leVal bb.content), leVal bb.content))

/-- Model of `decode::le::u8`. -/
def le_u8 : Bytes → Bytes × Except Error (Meta × Val × Nat) :=
  decode_int 1 Val.u8

/-- Model of `decode::le::u16`. -/
def le_u16 : Bytes → Bytes × Except Error (Meta × Val × Nat) :=
  decode_int 2 Val.u16

/-- Model of `decode::le::u32`. -/
def le_u32 : Bytes → Bytes × Except Error (Meta × Val × Nat) :=
  decode_int 4 Val.u32

/-- Model of `decode::le::u64`. -/
def le_u64 : Bytes → Bytes × Except Error (Meta × Val × Nat) :=
  decode_int 8 Val.u64

/-- Model of `decode::raw(b, n)`: consume `n` bytes as an uninterpreted
window with a defaulted value. -/
def raw (b : Bytes) (n : Nat) : Bytes × Except Error (Meta × Val × Bytes) :=
  match take b n with
  | (b', .error e) => (b', .error e)
  | (b', .ok bb) => (b', .ok (Meta.fromBytes bb, Val.default, bb))

/-- Rendering of a byte sequence as text (the `byte_str` closure of
`decode::precise`). -/
def byte_str (s : List Nat) : String :=
  String.mk (s.map (fun c => Char.ofNat c))

/-- Model of `decode::precise(b, s, force)`: consume `s.len()` bytes and
require them to equal `s` unless `force` is set. -/
def precise (b : Bytes) (s : List Nat) (force : Bool) :
    Bytes × Except Error (Meta × Val × Unit) :=
  let errMsg := "expected byte sequence " ++ byte_str s
  match take b s.length with
  | (b', .error e) => (b', .error { e with msg := errMsg })
  | (b', .ok bb) =>
    if bb.content == s || force then
      (b', .ok (Meta.fromBytes bb, Val.default, ()))
    else
      (b', .error (Error.new bb errMsg))

/-- Modelled from the spec: the little-endian integer decoders referenced by
`zip.rs` as `u16_le`, `u32_le`, `u64_le` are not present in the provided
sources (only the `le` module is); per the spec's Primitive Decoders section
they are the fixed-width little-endian decoders, i.e. `le::u16` etc. -/
def u16_le : Bytes → Bytes × Except Error (Meta × Val × Nat) :=
  le_u16

/-- Modelled from the spec: see `u16_le`. -/
def u32_le : Bytes → Bytes × Except Error (Meta × Val × Nat) :=
  le_u32

/-- Modelled from the spec: see `u16_le`. -/
def u64_le : Bytes → Bytes × Except Error (Meta × Val × Nat) :=
  le_u64

/-- Model of `zip::CENTRAL_DIR_SIG` (`PK\x01\x02`). -/
def CENTRAL_DIR_SIG : List Nat := [80, 75, 1, 2]

/-- Model of `zip::LOCAL_FILE_SIG` (`PK\x03\x04`). -/
def LOCAL_FILE_SIG : List Nat := [80, 75, 3, 4]

/-- Model of `zip::END_OF_CENTRAL_DIR_SIG` (`PK\x05\x06`). -/
def END_OF_CENTRAL_DIR_SIG : List Nat := [80, 75, 5, 6]

/-- Model of `zip::END_OF_CENTRAL_DIR_64_SIG` (`PK\x06\x06`). -/
def END_OF_CENTRAL_DIR_64_SIG : List Nat := [80, 75, 6, 6]

/-- Model of `zip::END_OF_CENTRAL_DIR_LOCATOR_SIG` (`PK\x06\x07`). -/
def END_OF_CENTRAL_DIR_LOCATOR_SIG : List Nat := [80, 75, 6, 7]

/-- Model of `zip::DATA_INDICATOR_SIG` (`PK\x07\x08`). -/
def DATA_INDICATOR_SIG : List Nat := [80, 75, 7, 8]

/-- Model of `zip::Opts`. -/
structure Opts where
  force : Bool

/-- Model of `Opts::default()`. -/
def Opts.default : Opts := ⟨false⟩

/-- Model of `zip::EndOfCentralDirRecord`. -/
structure EndOfCentralDirRecord where
  disk_nr : Nat
  size_cd : Nat
  offset_cd : Nat
deriving DecidableEq

/-- Model of `EndOfCentralDirRecord::cd_range`: `offset_cd .. offset_cd + size_cd`. -/
def EndOfCentralDirRecord.cd_range (e : EndOfCentralDirRecord) : Nat × Nat :=
  (e.offset_cd, e.offset_cd + e.size_cd)

/-- The result shape of every stateful `zip.rs` decoder: the final object and
cursor together with the decode result; the outer `Option` is `none` exactly
when the Rust code panics. -/
abbrev ZRes (α : Type) : Type := Option ((Obj × Bytes) × Except Error α)

/-- Sequencing of `zip.rs` decoder steps: propagate panics and errors,
thread the mutated object and cursor. -/
def zbind {α β : Type} (x : ZRes α) (k : Obj → Bytes → α → ZRes β) : ZRes β :=
  match x with
  | none => none
  | some ((o, b), .error e) => some ((o, b), .error e)
  | some ((o, b), .ok y) => k o b y

/-- The ubiquitous `o.add(field, prim(b))?` pattern: run a primitive decoder
on the cursor, then add its `(Meta, Val, T)` result under `field`. -/
def addP {α : Type} (o : Obj) (b : Bytes) (field : String)
    (p : Bytes → Bytes × Except Error (Meta × Val × α)) : ZRes α :=
  match p b with
  | (b', r) =>
    match Obj.add o field r with
    | (o', r') => some ((o', b'), r')

/-- The `consume(&mut b, meta, |b| dec(v.make_obj(), b))` pattern used by the
`zip.rs` call sites of `decode::consume`: run a child object decoder on the
cursor and, as `decode::consume` does, set the `Meta`'s span to the consumed
range only on success; the child value becomes the (possibly partial)
object in either case. -/
def consumeObj {α : Type} (b : Bytes) (m : Meta)
    (f : Obj → Bytes → ZRes α) : Option (Bytes × Meta × Val × Except Error α) :=
  match f [] b with
  | none => none
  | some ((o, b'), .error e) => some (b', m, Val.obj o, .error e)
  | some ((o, b'), .ok y) =>
    some (b', { m with bytes := b.truncate (b.len - b'.len) }, Val.obj o, .ok y)

/-- Model of `zip::decode_eocd_common`: the six numeric EOCD fields, 16/32
bit in ZIP-32 and 32/64 bit in ZIP64 (`u16_as_u32`/`u32_as_u64` keep the
original `Val` tag and merely widen the returned integer). -/
def decode_eocd_common (o : Obj) (b : Bytes) (zip64 : Bool) :
    ZRes EndOfCentralDirRecord :=
  let small := fun b => if zip64 then u32_le b else u16_le b
  let large := fun b => if zip64 then u64_le b else u32_le b
  zbind (addP o b "disk_nr" small) (fun o b disk_nr =>
  zbind (addP o b "start_disk_nr" small) (fun o b _ =>
  zbind (addP o b "nr_of_central_dir_records_on_disk" small) (fun o b _ =>
  zbind (addP o b "nr_of_central_dir_records" small) (fun o b _ =>
  zbind (addP o b "size_of_central_dir" large) (fun o b size_cd =>
  zbind (addP o b "offset_of_start_of_central_dir" large) (fun o b offset_cd =>
  some ((o, b), .ok ⟨disk_nr, size_cd, offset_cd⟩)))))))

/-- Model of `zip::decode_eocd`: signature, common fields, comment. -/
def decode_eocd (o : Obj) (b : Bytes) (opts : Opts) :
    ZRes EndOfCentralDirRecord :=
  zbind (addP o b "signature"
      (fun b => precise b END_OF_CENTRAL_DIR_SIG opts.force)) (fun o b _ =>
  zbind (decode_eocd_common o b false) (fun o b eocdr =>
  zbind (addP o b "comment_length" u16_le) (fun o b comment_length =>
  zbind (addP o b "comment" (fun b => raw b comment_length)) (fun o b _ =>
  some ((o, b), .ok eocdr)))))

/-- Model of `zip::decode_extensible_data`: one `{tag, size, data}` record. -/
def decode_extensible_data (o : Obj) (b : Bytes) : ZRes Unit :=
  zbind (addP o b "tag" u16_le) (fun o b _ =>
  zbind (addP o b "size" u16_le) (fun o b data_size =>
  zbind (addP o b "data" (fun b => raw b data_size)) (fun o b _ =>
  some ((o, b), .ok ()))))

/-- The `while !b.is_empty()` loop inside `decode_eocd64`'s
`extensible_data` closure.  The loop's progress is made explicit: `fuel`
(instantiated with `b.len + 1` at the call site) bounds the number of
iterations, each successful iteration must strictly consume, and both
escape hatches model a diverging Rust loop by `none`; since a successful
iteration consumes at least the two `u16` header bytes, neither is ever
taken. -/
def decode_ext_loop (a : Arr) (b : Bytes) (fuel : Nat) :
    Option ((Arr × Bytes) × Except Error Unit) :=
  match fuel with
  | 0 => none
  | fuel + 1 =>
    if b.len = 0 then some ((a, b), .ok ())
    else
      match Arr.add_mut a (Meta.fromBytes b)
          (fun m _v => consumeObj b m decode_extensible_data) with
      | none => none
      | some (b', a', .error e) => some ((a', b'), .error e)
      | some (b', a', .ok _) =>
        if b'.len < b.len then decode_ext_loop a' b' fuel else none

/-- Model of `zip::decode_eocd64`: the ZIP64 EOCD record.  The
`checked_sub(44).unwrap()` panic on `size_eocd < 44` is `none`. -/
def decode_eocd64 (o : Obj) (b : Bytes) (opts : Opts) :
    ZRes EndOfCentralDirRecord :=
  zbind (addP o b "signature"
      (fun b => precise b END_OF_CENTRAL_DIR_64_SIG opts.force)) (fun o b _ =>
  zbind (addP o b "size_of_end_of_central_directory" u64_le) (fun o b size_eocd =>
  zbind (addP o b "version_made_by" u16_le) (fun o b _ =>
  zbind (addP o b "version_needed" u16_le) (fun o b _ =>
  zbind (decode_eocd_common o b true) (fun o b eocdr =>
  if size_eocd < 44 then none
  else
    match take b (size_eocd - 44) with
    | (b', .error e) => some ((o, b'), .error e)
    | (b', .ok eslice) =>
      match Obj.add_mut o "extensible_data" (Meta.fromBytes eslice)
          (fun m _v =>
            match decode_ext_loop [] eslice (eslice.len + 1) with
            | none => none
            | some ((a, es'), r) => some (es', m, Val.arr a, r)) with
      | none => none
      | some (_, o', .error e) => some ((o', b'), .error e)
      | some (_, o', .ok _) => some ((o', b'), .ok eocdr))))))

/-- Model of `zip::decode_eocdl`: the ZIP64 EOCD locator; returns the
64-bit offset of the ZIP64 EOCD record. -/
def decode_eocdl (o : Obj) (b : Bytes) (opts : Opts) : ZRes Nat :=
  zbind (addP o b "signature"
      (fun b => precise b END_OF_CENTRAL_DIR_LOCATOR_SIG opts.force)) (fun o b _ =>
  zbind (addP o b "disk_nr" u32_le) (fun o b _ =>
  zbind (addP o b "offset_of_end_of_central_dir_record" u64_le) (fun o b offset_cdr =>
  zbind (addP o b "total_disk_nr" u32_le) (fun o b _ =>
  some ((o, b), .ok offset_cdr)))))

/-- Model of `zip::Common`: the fields shared by CDR and LFH decoding. -/
structure Common where
  flags : Nat
  compression_method : Nat
  compressed_size : Nat
  filename_len : Nat
  extra_field_len : Nat
deriving DecidableEq

/-- The named bits of the `zip::Flags` bitflags, in declaration order. -/
def flagsNames : List (String × Nat) :=
  [("encrypted", 0), ("compression1", 1), ("compression0", 2),
   ("data_descriptor", 3), ("enhanced_deflation", 4),
   ("compressed_patched_data", 5), ("strong_encryption", 6),
   ("language_encoding", 11), ("mask_header_values", 13)]

/-- The named bits of the `zip::Timestamp` bitflags, in declaration order. -/
def timestampNames : List (String × Nat) :=
  [("modification_time_present", 0), ("access_time_present", 1),
   ("creation_time_present", 2)]

/-- Model of the `flags_obj!` macro: one boolean child per named flag,
all sharing the raw field's `Meta`. -/
def flags_obj (m : Meta) (u : Nat) (names : List (String × Nat)) : Val :=
  Val.obj (names.map (fun p => (p.1, m, Val.bool (u.testBit p.2))))

/-- Model of the `lazy_flags!` macro: keep the raw integer value but pair it
with a lazy boolean-per-flag expansion. -/
def lazy_flags (names : List (String × Nat)) (x : Meta × Val × Nat) :
    Meta × Val × Nat :=
  (x.1, Val.lazy (fun _ => flags_obj x.1 x.2.2 names), x.2.2)

/-- Model of the `mask` helper of `zip.rs`: extract `width` bits at `offset`
and narrow to `u8` (the `as u8` cast is `% 256`). -/
def mask (u : Nat) (offset width : Nat) : Nat :=
  ((u &&& (((1 <<< width) - 1) <<< offset)) >>> offset) % 256

/-- Model of `zip::sec_min_hr`. -/
def sec_min_hr (time : Nat) : Nat × Nat × Nat :=
  (mask time 0 5, mask time 5 6, mask time 11 5)

/-- Model of `zip::day_month_year`. -/
def day_month_year (date : Nat) : Nat × Nat × Nat :=
  (mask date 0 5, mask date 5 4, mask date 9 7)

/-- The entry list built by the `time` closure of `zip::decode_time_date`
(`sec * 2` is `u8` arithmetic, hence `% 256`). -/
def time_entries (time : Nat) : List (String × Val) :=
  [("second", Val.u8 ((sec_min_hr time).1 * 2 % 256)),
   ("minute", Val.u8 (sec_min_hr time).2.1),
   ("hour", Val.u8 (sec_min_hr time).2.2)]

/-- The entry list built by the `date` closure of `zip::decode_time_date`
(`yr as u16 + 1980` is `u16` arithmetic, hence `% 65536`). -/
def date_entries (date : Nat) : List (String × Val) :=
  [("day", Val.u8 (day_month_year date).1),
   ("month", Val.u8 (day_month_year date).2.1),
   ("year", Val.u16 (((day_month_year date).2.2 + 1980) % 65536))]

/-- The lazy object value built by `zip::decode_td`: every entry shares the
raw field's span. -/
def td_val (span : Bytes) (entries : List (String × Val)) : Val :=
  Val.lazy (fun _ =>
    Val.obj (entries.map (fun p => (p.1, Meta.fromBytes span, p.2))))

/-- Model of `zip::decode_td`: decode a `u16` and pair it with a lazy
expansion whose entries are produced by `f`. -/
def decode_td (b : Bytes) (f : Nat → List (String × Val)) :
    Bytes × Except Error (Meta × Val × Nat) :=
  match u16_le b with
  | (b', .error e) => (b', .error e)
  | (b', .ok (meta, _, time)) =>
    (b', .ok (meta, td_val meta.bytes (f time), time))

/-- Model of `zip::decode_time_date`: both `u16` fields are decoded first,
then added (matching the evaluation order of the source). -/
def decode_time_date (o : Obj) (b : Bytes) : ZRes Unit :=
  match decode_td b time_entries with
  | (b1, time) =>
    match decode_td b1 date_entries with
    | (b2, date) =>
      match Obj.add o "fat_time" time with
      | (o1, .error e) => some ((o1, b2), .error e)
      | (o1, .ok _) =>
        match Obj.add o1 "fat_date" date with
        | (o2, .error e) => some ((o2, b2), .error e)
        | (o2, .ok _) => some ((o2, b2), .ok ())

/-- Model of `zip::Zip64`: the optional ZIP64 extra-field values. -/
structure Zip64 where
  uncompressed_size : Option Nat
  compressed_size : Option Nat
  local_file_offset : Option Nat
  disk_nr_start : Option Nat
deriving DecidableEq

/-- Model of `Zip64::default()`. -/
def Zip64.empty : Zip64 := ⟨none, none, none, none⟩

/-- One conditional timestamp field of `zip::decode_extended_timestamp`:
added only if its flag bit is set and input remains. -/
def ts_field (o : Obj) (b : Bytes) (flags : Nat) (key : String) (bit : Nat) :
    ZRes Unit :=
  if flags.testBit bit && !b.isEmpty then
    zbind (addP o b key le_u32) (fun o b _ => some ((o, b), .ok ()))
  else
    some ((o, b), .ok ())

/-- Model of `zip::decode_extended_timestamp` (extra-field tag `0x5455`).
As in the source, a failing `le::u8` propagates before the `add`, so the
`flags` breadcrumb is absent from that error. -/
def decode_extended_timestamp (o : Obj) (b : Bytes) : ZRes Unit :=
  match le_u8 b with
  | (b', .error e) => some ((o, b'), .error e)
  | (b', .ok x) =>
    match Obj.add o "flags" (.ok (lazy_flags timestampNames x)) with
    | (o', r) =>
      zbind (some ((o', b'), r)) (fun o b flags =>
      zbind (ts_field o b flags "modification_time" 0) (fun o b _ =>
      zbind (ts_field o b flags "access_time" 1) (fun o b _ =>
      zbind (ts_field o b flags "creation_time" 2) (fun o b _ =>
      some ((o, b), .ok ())))))

/-- Model of `zip::decode_zip64` (extra-field tag `0x0001`): the fields are
present only while input bytes remain, in this fixed order. -/
def decode_zip64 (o : Obj) (b : Bytes) : ZRes Zip64 :=
  let step := fun (o : Obj) (b : Bytes) (key : String)
      (p : Bytes → Bytes × Except Error (Meta × Val × Nat)) =>
    if !b.isEmpty then
      zbind (addP o b key p) (fun o b u => some ((o, b), .ok (some u)))
    else
      some ((o, b), .ok none)
  zbind (step o b "uncompressed_size" u64_le) (fun o b uncompressed_size =>
  zbind (step o b "compressed_size" u64_le) (fun o b compressed_size =>
  zbind (step o b "local_file_offset" u64_le) (fun o b local_file_offset =>
  zbind (step o b "disk_nr_start" u32_le) (fun o b disk_nr_start =>
  some ((o, b), .ok ⟨uncompressed_size, compressed_size,
    local_file_offset, disk_nr_start⟩)))))

/-- Model of `zip::decode_common`: the header fields shared by CDR and LFH.
A failing `u16_le` for the flags propagates before the `add` (matching the
`u16_le(b)?` inside the `add` call in the source). -/
def decode_common (o : Obj) (b : Bytes) : ZRes Common :=
  match u16_le b with
  | (b', .error e) => some ((o, b'), .error e)
  | (b', .ok x) =>
    match Obj.add o "flags" (.ok (lazy_flags flagsNames x)) with
    | (o', r) =>
      zbind (some ((o', b'), r)) (fun o b flags =>
      zbind (addP o b "compression_method" u16_le) (fun o b compression_method =>
      zbind (match Obj.add_mut o "last_modification" (Meta.fromBytes b)
          (fun m _v => consumeObj b m decode_time_date) with
        | none => none
        | some (b, o, r) => some ((o, b), r)) (fun o b _ =>
      zbind (addP o b "crc_32" u32_le) (fun o b _ =>
      zbind (addP o b "compressed_size" u32_le) (fun o b compressed_size =>
      zbind (addP o b "uncompressed_size" u32_le) (fun o b _ =>
      zbind (addP o b "file_name_length" u16_le) (fun o b filename_len =>
      zbind (addP o b "extra_field_length" u16_le) (fun o b extra_field_len =>
      some ((o, b), .ok ⟨flags, compression_method, compressed_size,
        filename_len, extra_field_len⟩)))))))))

/-- Model of `zip::CentralDirRecord`. -/
structure CentralDirRecord where
  common : Common
  disk_nr_start : Nat
  local_file_offset : Nat
deriving DecidableEq

/-- Model of `zip::decode_extra_field`: one `{tag, size, data}` record,
dispatching on the tag (`0x0001` ZIP64, `0x5455` = 21589 extended
timestamp, anything else kept raw). -/
def decode_extra_field (o : Obj) (b : Bytes) : ZRes (Option Zip64) :=
  zbind (addP o b "tag" u16_le) (fun o b tag =>
  zbind (addP o b "size" u16_le) (fun o b size =>
  match raw b size with
  | (b', .error e) => some ((o, b'), .error e)
  | (b', .ok (meta, v, bb)) =>
    match Obj.add_mut o "data" meta (fun m _v =>
        match tag with
        | 1 =>
          match decode_zip64 [] bb with
          | none => none
          | some ((oc, bb'), r) =>
            some (bb', m, Val.obj oc, r.map (fun z => some z))
        | 21589 =>
          match decode_extended_timestamp [] bb with
          | none => none
          | some ((oc, bb'), r) =>
            some (bb', m, Val.obj oc, r.map (fun _ => (none : Option Zip64)))
        | _ => some (bb, m, v, .ok (none : Option Zip64))) with
    | none => none
    | some (_, o', r) => some ((o', b'), r)))

/-- Model of the `while !b.is_empty()` loop of `zip::decode_extra_fields`,
with the `zip64 = y.unwrap_or(zip64)` accumulator made an argument and the
loop's progress made explicit as in `decode_ext_loop`. -/
def decode_extra_fields_loop (a : Arr) (zip64 : Zip64) (b : Bytes) (fuel : Nat) :
    Option ((Arr × Bytes) × Except Error Zip64) :=
  match fuel with
  | 0 => none
  | fuel + 1 =>
    if b.len = 0 then some ((a, b), .ok zip64)
    else
      match Arr.add_mut a (Meta.fromBytes b)
          (fun m _v => consumeObj b m decode_extra_field) with
      | none => none
      | some (b', a', .error e) => some ((a', b'), .error e)
      | some (b', a', .ok y) =>
        if b'.len < b.len then decode_extra_fields_loop a' (y.getD zip64) b' fuel
        else none

/-- Model of `zip::decode_extra_fields`: loop starting from
`Zip64::default()`. -/
def decode_extra_fields (a : Arr) (b : Bytes) :
    Option ((Arr × Bytes) × Except Error Zip64) :=
  decode_extra_fields_loop a Zip64.empty b (b.len + 1)

/-- Model of `zip::decode_name_and_fields`: the file name and the
extra-fields block (decoded from its own `take`n slice). -/
def decode_name_and_fields (o : Obj) (b : Bytes) (common : Common) :
    ZRes Zip64 :=
  zbind (addP o b "file_name" (fun b => raw b common.filename_len)) (fun o b _ =>
  match take b common.extra_field_len with
  | (b', .error e) => some ((o, b'), .error e)
  | (b', .ok efs_slice) =>
    match Obj.add_mut o "extra_fields" (Meta.fromBytes efs_slice)
        (fun m _v =>
          match decode_extra_fields [] efs_slice with
          | none => none
          | some ((a, es'), r) => some (es', m, Val.arr a, r)) with
    | none => none
    | some (_, o', r) => some ((o', b'), r))

/-- Model of `zip::decode_cdr`: one central directory record. -/
def decode_cdr (o : Obj) (b : Bytes) (opts : Opts) : ZRes CentralDirRecord :=
  zbind (addP o b "signature"
      (fun b => precise b CENTRAL_DIR_SIG opts.force)) (fun o b _ =>
  zbind (addP o b "version_made_by" u16_le) (fun o b _ =>
  zbind (addP o b "version_needed" u16_le) (fun o b _ =>
  zbind (decode_common o b) (fun o b common =>
  zbind (addP o b "file_comment_length" u16_le) (fun o b file_comment_len =>
  zbind (addP o b "disk_number_where_file_starts" u16_le) (fun o b disk_nr_start =>
  zbind (addP o b "internal_file_attributes" u16_le) (fun o b _ =>
  zbind (addP o b "external_file_attributes" u32_le) (fun o b _ =>
  zbind (addP o b "relative_offset_of_local_file_header" u32_le)
      (fun o b local_file_offset =>
  zbind (decode_name_and_fields o b common) (fun o b zip64 =>
  zbind (addP o b "file_comment" (fun b => raw b file_comment_len)) (fun o b _ =>
  some ((o, b), .ok ⟨common, zip64.disk_nr_start.getD disk_nr_start,
    zip64.local_file_offset.getD local_file_offset⟩))))))))))))

/-- Modelled from the spec: `miniz_oxide::inflate::decompress_to_vec` is an
external opaque byte-in/byte-out function (explicitly out of the spec's
scope); it is modelled as always unavailable, which affects only the
contents of forced `uncompressed` lazy nodes, never their presence. -/
def decompress_to_vec (b : List Nat) : Option (List Nat) :=
  none

/-- The compression methods enumerated by `zip::CompressionMethod`;
`CompressionMethod::from_u16` succeeds exactly on these. -/
def compressionMethods : List Nat :=
  [0, 1, 2, 3, 4, 5, 6, 8, 9, 10, 12, 14, 18, 19, 98]

/-- Model of `CompressionMethod::from_u16`. -/
def from_u16 (u : Nat) : Option Nat :=
  if compressionMethods.contains u then some u else none

/-- Model of `zip::uncompress`: an object with one `uncompressed` child for
methods `none` (0, copy-through) and `deflated` (8, inflate), and an empty
object for every other method. -/
def uncompress (b : Bytes) (method : Nat) : Val :=
  Val.obj ((match method with
    | 8 => (decompress_to_vec b.content).map
        (fun v => (⟨v, 0, v.length⟩ : Bytes))
    | 0 => some b
    | _ => none).toList.map
    (fun uc => ("uncompressed", Meta.fromBytes uc, Val.default)))

/-- Model of `zip::decode_data_indicator`: optional signature, then CRC and
the two sizes. -/
def decode_data_indicator (o : Obj) (b : Bytes) : ZRes Unit :=
  zbind (if b.startsWith DATA_INDICATOR_SIG then
      zbind (addP o b "signature"
        (fun b => precise b DATA_INDICATOR_SIG true)) (fun o b _ =>
        some ((o, b), .ok ()))
    else some ((o, b), .ok ())) (fun o b _ =>
  zbind (addP o b "crc32_uncompressed" u32_le) (fun o b _ =>
  zbind (addP o b "compressed_size" u32_le) (fun o b _ =>
  zbind (addP o b "uncompressed_size" u32_le) (fun o b _ =>
  some ((o, b), .ok ())))))

/-- Model of the `compressed_size` selection in `zip::decode_local_file`:
the ZIP64 value if present, else the LFH's 32-bit value; a zero result
falls back to the CDR's size.  The `data_descriptor` flag plays no role
here. -/
def lf_compressed_size (zip64cs : Option Nat) (lfcs cdrcs : Nat) : Nat :=
  match zip64cs.getD lfcs with
  | 0 => cdrcs
  | s => s

/-- The `if compressed_size > 0` block of `zip::decode_local_file`: consume
the payload and add it with a lazy decompression sibling value (or a
defaulted value for unrecognised methods). -/
def lf_compressed_part (o : Obj) (b : Bytes) (csize cm : Nat) : ZRes Unit :=
  if csize > 0 then
    match raw b csize with
    | (b', .error e) => some ((o, b'), .error e)
    | (b', .ok (meta, _v, compressed)) =>
      let v := match from_u16 cm with
        | none => Val.default
        | some mth => Val.lazy (fun _ => uncompress compressed mth)
      match Obj.add o "compressed" (.ok (meta, v, ())) with
      | (o', r) => some ((o', b'), r)
  else some ((o, b), .ok ())

/-- Model of `zip::decode_local_file`: one local file header, its payload
sized by `lf_compressed_size` against the matching CDR, and a trailing data
descriptor when the `data_descriptor` flag (bit 3) is set. -/
def decode_local_file (o : Obj) (b : Bytes) (opts : Opts)
    (cdr_common : Common) : ZRes Unit :=
  zbind (addP o b "signature"
      (fun b => precise b LOCAL_FILE_SIG opts.force)) (fun o b _ =>
  zbind (addP o b "version_needed" u16_le) (fun o b _ =>
  zbind (decode_common o b) (fun o b lf_common =>
  zbind (decode_name_and_fields o b lf_common) (fun o b zip64 =>
  zbind (lf_compressed_part o b
      (lf_compressed_size zip64.compressed_size lf_common.compressed_size
        cdr_common.compressed_size)
      lf_common.compression_method) (fun o b _ =>
  if lf_common.flags.testBit 3 then
    match Obj.add_mut o "data_indicator" (Meta.fromBytes b)
        (fun m _v => consumeObj b m decode_data_indicator) with
    | none => none
    | some (b, o, r) => some ((o, b), r)
  else some ((o, b), .ok ()))))))

/-- Model of `zip::find`: position of the last occurrence of a 4-byte
signature, scanning the windows of the buffer backwards from the end,
inspecting at most `len - 3` windows (hence at most `len` bytes). -/
def windows4 (b : List Nat) : List (List Nat) :=
  (List.range (b.length - 3)).map (fun i => (b.drop i).take 4)

/-- Model of `zip::find` (continued): `b.windows(4).rev().take(len - 3)
.position(|w| w == sig)` mapped to the absolute start index. -/
def find (b sig : List Nat) (len : Nat) : Option Nat :=
  match ((windows4 b).reverse.take (len - 3)).findIdx? (fun w => w == sig) with
  | none => none
  | some p => some (b.length - (p + 4))

/-- Model of `zip::decode_eocds`: locate and decode the EOCD record, and,
when the locator signature is found in the remaining prefix, the ZIP64
locator and EOCD as well.  The `find(..).unwrap()` of the source panics
when the EOCD signature is absent: that is the `none` of the first match. -/
def decode_eocds (o : Obj) (b : Bytes) (opts : Opts) :
    ZRes EndOfCentralDirRecord :=
  match find b.content END_OF_CENTRAL_DIR_SIG 65558 with
  | none => none
  | some eocds_abs =>
    let bp := (b.splitOff eocds_abs).1
    let eocd_slice := (b.splitOff eocds_abs).2
    match Obj.add_mut o "end_of_central_dir_record" (Meta.fromBytes eocd_slice)
        (fun m _v =>
          match decode_eocd [] eocd_slice opts with
          | none => none
          | some ((oc, es'), r) => some (es', m, Val.obj oc, r)) with
    | none => none
    | some (_, o, .error e) => some ((o, bp), .error e)
    | some (_, o, .ok eocd) =>
      match find bp.content END_OF_CENTRAL_DIR_LOCATOR_SIG 20 with
      | none => some ((o, bp), .ok eocd)
      | some eocdl_abs =>
        let bq := (bp.splitOff eocdl_abs).1
        let eocdl_slice := (bp.splitOff eocdl_abs).2
        match Obj.add_mut o "end_of_central_directory_locator"
            (Meta.fromBytes eocdl_slice)
            (fun m _v =>
              match decode_eocdl [] eocdl_slice opts with
              | none => none
              | some ((oc, es'), r) => some (es', m, Val.obj oc, r)) with
        | none => none
        | some (_, o, .error e) => some ((o, bq), .error e)
        | some (_, o, .ok offset_eocd) =>
          match try_slice bq offset_eocd bq.len with
          | .error e => some ((o, bq), .error e)
          | .ok eocd64_slice =>
            match Obj.add_mut o "end_of_central_directory_record_zip64"
                (Meta.fromBytes eocd64_slice)
                (fun m _v =>
                  match decode_eocd64 [] eocd64_slice opts with
                  | none => none
                  | some ((oc, es'), r) => some (es', m, Val.obj oc, r)) with
            | none => none
            | some (_, o, r) => some ((o, bq), r)

/-- Model of the `while !cd_slice.is_empty()` loop of `zip::decode_zip`,
accumulating the decoded CDRs, with the loop's progress made explicit as in
`decode_ext_loop` (a successful iteration consumes at least the four
signature bytes). -/
def decode_cdr_loop (cd : Arr) (cds : List CentralDirRecord) (b : Bytes)
    (opts : Opts) (fuel : Nat) :
    Option ((Arr × Bytes) × Except Error (List CentralDirRecord)) :=
  match fuel with
  | 0 => none
  | fuel + 1 =>
    if b.len = 0 then some ((cd, b), .ok cds)
    else
      match Arr.add_mut cd (Meta.fromBytes b)
          (fun m _v => consumeObj b m (fun o b => decode_cdr o b opts)) with
      | none => none
      | some (b', cd', .error e) => some ((cd', b'), .error e)
      | some (b', cd', .ok cdr) =>
        if b'.len < b.len then decode_cdr_loop cd' (cds ++ [cdr]) b' opts fuel
        else none

/-- Model of the `for cdr in cd.iter().filter(..)` loop of
`zip::decode_zip`: one local file header per CDR on the archive's disk, in
CDR order.  `lf_slice.slice(offset..)` panics (`none`) past the end. -/
def decode_lf_loop (a : Arr) (lf_slice : Bytes)
    (cdrs : List CentralDirRecord) (disk : Nat) (opts : Opts) :
    Option (Arr × Except Error Unit) :=
  match cdrs with
  | [] => some (a, .ok ())
  | cdr :: rest =>
    if cdr.disk_nr_start == disk then
      match lf_slice.sliceFrom cdr.local_file_offset with
      | none => none
      | some lfr_slice =>
        match Arr.add_mut a (Meta.fromBytes lfr_slice)
            (fun m _v => consumeObj lfr_slice m
              (fun o b => decode_local_file o b opts cdr.common)) with
        | none => none
        | some (_, a', .error e) => some (a', .error e)
        | some (_, a', .ok _) => decode_lf_loop a' lf_slice rest disk opts
    else decode_lf_loop a lf_slice rest disk opts

/-- Model of `zip::decode_zip`: EOCD discovery, central directory
traversal, then one local file header per matching CDR. -/
def decode_zip (root : Obj) (b : Bytes) (opts : Opts) : ZRes Unit :=
  zbind (decode_eocds root b opts) (fun root b eocd =>
  match try_slice b eocd.cd_range.1 eocd.cd_range.2 with
  | .error e => some ((root, b), .error e)
  | .ok cd_slice =>
    match Obj.add_mut root "central_directories" (Meta.fromBytes cd_slice)
        (fun m _v =>
          match decode_cdr_loop [] [] cd_slice opts (cd_slice.len + 1) with
          | none => none
          | some ((a, b'), r) => some (b', m, Val.arr a, r)) with
    | none => none
    | some (_, root, .error e) => some ((root, b), .error e)
    | some (_, root, .ok cd) =>
      match try_slice b 0 eocd.cd_range.1 with
      | .error e => some ((root, b), .error e)
      | .ok lf_slice =>
        match Obj.add_mut root "local_files" (Meta.fromBytes lf_slice)
            (fun m _v =>
              match decode_lf_loop [] lf_slice cd eocd.disk_nr opts with
              | none => none
              | some (a, r) => some ((), m, Val.arr a, r)) with
        | none => none
        | some (_, root, r) => some ((root, b), r))

namespace Tar

/-- Model of `tar2::BLOCK_BYTES`. -/
def BLOCK_BYTES : Nat := 512

/-- Model of the `padding` closure of `tar2::decode_file`:
`BLOCK_BYTES - (pos % BLOCK_BYTES)` (note: a full block when `pos` is
already block-aligned). -/
def padding (pos : Nat) : Nat :=
  BLOCK_BYTES - pos % BLOCK_BYTES

/-- Model of `tar::take(d, n)`: consume the length-`n` prefix of a borrowed
slice, or `None` without consuming when fewer than `n` bytes remain. -/
def take (d : List Nat) (n : Nat) : Option (List Nat × List Nat) :=
  if n > d.length then none else some (d.take n, d.drop n)

/-- Model of `tar2::trim`: strip leading and trailing ASCII spaces. -/
def trim (s : List Nat) : List Nat :=
  ((s.dropWhile (fun c => c == 32)).reverse.dropWhile (fun c => c == 32)).reverse

/-- Model of `tar2::utf8`: the prefix before the first NUL byte (the UTF-8
validity check of the source, whose failure panics, is not modelled; all
inputs used in theorems below are ASCII). -/
def utf8 (s : List Nat) : List Nat :=
  s.takeWhile (fun c => c != 0)

/-- Octal digit test for `from_str_radix(_, 8)`. -/
def isOctDigit (c : Nat) : Bool :=
  48 ≤ c && c ≤ 55

/-- Model of `u64::from_str_radix(s, 8)` (and the `u8`/`u32` variants, which
agree on values in range): `none` on an empty or non-octal string.  (The
sign prefixes `from_str_radix` would also accept never occur in TAR
headers.) -/
def oct (s : List Nat) : Option Nat :=
  if s ≠ [] ∧ s.all isOctDigit then
    some (s.foldl (fun a c => a * 8 + (c - 48)) 0)
  else none

/-- Model of `tar2::UStar` (the `prefix` field is named `prefix_field`
here).  Numeric fields keep the `(text, value)` pair of the source. -/
structure UStar where
  magic : List Nat
  version : List Nat × Nat
  uname : List Nat
  gname : List Nat
  devmajor : List Nat × Nat
  devminor : List Nat × Nat
  prefix_field : List Nat
deriving DecidableEq

/-- Model of `tar2::Header`. -/
structure Header where
  name : List Nat
  mode : List Nat × Nat
  uid : List Nat × Nat
  gid : List Nat × Nat
  size : List Nat × Nat
  mtime : List Nat × Nat
  chksum : List Nat × Nat
  typeflag : List Nat
  linkname : List Nat
  ustar : Option UStar
deriving DecidableEq

/-- Model of `tar2::File`. -/
structure File where
  src : List Nat
  header : Header
  data : List Nat
deriving DecidableEq

/-- Model of `tar2::decode_ustar`.  The inner `Option` is the source's
return value (`none`: no ustar extension, with any bytes consumed so far
staying consumed, exactly as the `take(..)?` early returns behave); the
outer `Option` is `none` when an `oct` unwrap panics. -/
def decode_ustar (d : List Nat) : Option (List Nat × Option UStar) :=
  match take d 6 with
  | none => some (d, none)
  | some (magic, d) =>
    if magic = [117, 115, 116, 97, 114, 0] then
      match take d 2 with
      | none => some (d, none)
      | some (vs, d) =>
        match oct (trim (utf8 vs)) with
        | none => none
        | some vn =>
          match take d 32 with
          | none => some (d, none)
          | some (uname, d) =>
            match take d 32 with
            | none => some (d, none)
            | some (gname, d) =>
              match take d 8 with
              | none => some (d, none)
              | some (djs, d) =>
                match oct (trim (utf8 djs)) with
                | none => none
                | some dj =>
                  match take d 8 with
                  | none => some (d, none)
                  | some (dns, d) =>
                    match oct (trim (utf8 dns)) with
                    | none => none
                    | some dn =>
                      match take d 155 with
                      | none => some (d, none)
                      | some (pf, d) =>
                        some (d, some ⟨utf8 magic, (utf8 vs, vn), utf8 uname,
                          utf8 gname, (utf8 djs, dj), (utf8 dns, dn), utf8 pf⟩)
    else some (d, none)

/-- Model of `tar2::decode_file`: the 257-byte header fields, the optional
ustar extension, padding to the 512-byte block boundary, `size` data bytes,
and padding computed by `padding(size)`.  `none` covers both the source's
`None` (a failed `take`) and a panicking octal parse; the distinction is
irrelevant to the claims below. -/
def decode_file (d : List Nat) : Option (File × List Nat) :=
  let src := d
  match take d 100 with
  | none => none
  | some (names, d) =>
  match take d 8 with
  | none => none
  | some (modes, d) =>
  match oct (trim (utf8 modes)) with
  | none => none
  | some mode =>
  match take d 8 with
  | none => none
  | some (uids, d) =>
  match oct (trim (utf8 uids)) with
  | none => none
  | some uid =>
  match take d 8 with
  | none => none
  | some (gids, d) =>
  match oct (trim (utf8 gids)) with
  | none => none
  | some gid =>
  match take d 12 with
  | none => none
  | some (sizes, d) =>
  match oct (trim (utf8 sizes)) with
  | none => none
  | some size =>
  match take d 12 with
  | none => none
  | some (mtimes, d) =>
  match oct (trim (utf8 mtimes)) with
  | none => none
  | some mtime =>
  match take d 8 with
  | none => none
  | some (chksums, d) =>
  match oct (trim (utf8 chksums)) with
  | none => none
  | some chksum =>
  match take d 1 with
  | none => none
  | some (tfs, d) =>
  match take d 100 with
  | none => none
  | some (links, d) =>
  match decode_ustar d with
  | none => none
  | some (d, ustar) =>
  match take d (padding (src.length - d.length)) with
  | none => none
  | some (_, d) =>
  match take d size with
  | none => none
  | some (data, d) =>
  match take d (padding size) with
  | none => none
  | some (_, d) =>
    some (⟨src.take (BLOCK_BYTES + size + padding size),
      ⟨utf8 names, (utf8 modes, mode), (utf8 uids, uid), (utf8 gids, gid),
       (utf8 sizes, size), (utf8 mtimes, mtime), (utf8 chksums, chksum),
       utf8 tfs, utf8 links, ustar⟩, data⟩, d)

end Tar

/-- The field names of an object, in order. -/
def objNames (o : Obj) : List String :=
  o.map (fun e => e.1)

/-- Whether an `Except` result is a success. -/
def exceptIsOk {α : Type} (r : Except Error α) : Bool :=
  match r with
  | .ok _ => true
  | .error _ => false

/-- Whether a `zip.rs` decoder run ended in success (neither a decode error
nor a panic). -/
def zipRunOk {α : Type} (r : ZRes α) : Bool :=
  match r with
  | some (_, .ok _) => true
  | _ => false

/-- Lazy-free projection of a `zip.rs` decoder run: the field names of the
resulting object, the remaining cursor length, success, and the byte span
recorded for the `compressed` child (if any). -/
def lf_run_proj (r : ZRes Unit) : Option (List String × Nat × Bool × Option Bytes) :=
  r.map (fun x => (objNames x.1.1, x.1.2.len, exceptIsOk x.2,
    (x.1.1.find? (fun e => e.1 == "compressed")).map (fun e => e.2.1.bytes)))

/-- Lazy-free projection of a whole-archive run: root field names and
success. -/
def zip_run_proj (r : ZRes Unit) : Option (List String × Bool) :=
  r.map (fun x => (objNames x.1.1, exceptIsOk x.2))

/-- A concrete local file header: name `a`, STORE method, LFH
`compressed_size = 0`, flags `0` (`data_descriptor` bit clear), followed by
five payload bytes. -/
def lfhNoDD : List Nat :=
  LOCAL_FILE_SIG ++ [20, 0] ++ [0, 0] ++ [0, 0] ++ [0, 0] ++ [0, 0] ++
  [0, 0, 0, 0] ++ [0, 0, 0, 0] ++ [0, 0, 0, 0] ++ [1, 0] ++ [0, 0] ++
  [97] ++ [104, 105, 33, 33, 33]

/-- Like `lfhNoDD` but with the `data_descriptor` flag (bit 3) set and a
12-byte unsigned data descriptor after the payload. -/
def lfhDD : List Nat :=
  LOCAL_FILE_SIG ++ [20, 0] ++ [8, 0] ++ [0, 0] ++ [0, 0] ++ [0, 0] ++
  [0, 0, 0, 0] ++ [0, 0, 0, 0] ++ [0, 0, 0, 0] ++ [1, 0] ++ [0, 0] ++
  [97] ++ [104, 105, 33, 33, 33] ++ List.replicate 12 0

/-- The matching central directory `Common`: `compressed_size = 5`. -/
def cdrCommon5 : Common :=
  ⟨0, 0, 5, 1, 0⟩

/-- The field names `decode_local_file` produces for `lfhNoDD`. -/
def lfhFieldNames : List String :=
  ["signature", "version_needed", "flags", "compression_method",
   "last_modification", "crc_32", "compressed_size", "uncompressed_size",
   "file_name_length", "extra_field_length", "file_name", "extra_fields",
   "compressed"]

/-- The 22-byte minimal ZIP: an EOCD record with all-zero fields. -/
def emptyZip : List Nat :=
  END_OF_CENTRAL_DIR_SIG ++ List.replicate 18 0

/-- Cursor over `emptyZip`. -/
def emptyZipBytes : Bytes :=
  ⟨emptyZip, 0, 22⟩

/-- An all-zero 512-byte TAR header block with valid octal fields, file
name `a`, declared size `0`, no ustar magic. -/
def tarHdr512 : List Nat :=
  (97 :: List.replicate 99 0) ++
  [48, 48, 48, 48, 54, 52, 52, 0] ++
  [48, 48, 48, 48, 48, 48, 48, 0] ++
  [48, 48, 48, 48, 48, 48, 48, 0] ++
  (List.replicate 11 48 ++ [0]) ++
  (List.replicate 11 48 ++ [0]) ++
  [48, 48, 48, 48, 48, 48, 48, 0] ++
  [48] ++
  List.replicate 100 0 ++
  List.replicate 255 0

mutual

/-- Helper: `eval` leaves no `Lazy` variant in the tree. -/
theorem eval_noLazy : ∀ v : Val, noLazy (Val.eval v) = true
  | .lazy l => by
    rw [Val.eval]
    exact eval_noLazy (l ())
  | .arr a => by
    rw [Val.eval, noLazy]
    exact evalElems_noLazy a
  | .obj o => by
    rw [Val.eval, noLazy]
    exact evalFields_noLazy o
  | .bool _ => rfl
  | .u8 _ => rfl
  | .u16 _ => rfl
  | .u32 _ => rfl
  | .u64 _ => rfl
  | .raw _ => rfl
  | .str _ => rfl

/-- Helper: `eval_noLazy` over array elements. -/
theorem evalElems_noLazy : ∀ a : List (Meta × Val), noLazyElems (evalElems a) = true
  | [] => rfl
  | (_, v) :: t => by
    rw [evalElems, noLazyElems, eval_noLazy v, evalElems_noLazy t]
    rfl

/-- Helper: `eval_noLazy` over object entries. -/
theorem evalFields_noLazy : ∀ o : List (String × Meta × Val), noLazyFields (evalFields o) = true
  | [] => rfl
  | (_, _, v) :: t => by
    rw [evalFields, noLazyFields, eval_noLazy v, evalFields_noLazy t]
    rfl

end

mutual

/-- Helper: `eval` is idempotent. -/
theorem eval_eval : ∀ v : Val, Val.eval (Val.eval v) = Val.eval v
  | .lazy l => by
    rw [Val.eval]
    exact eval_eval (l ())
  | .arr a => by
    rw [Val.eval, Val.eval, evalElems_evalElems a]
  | .obj o => by
    rw [Val.eval, Val.eval, evalFields_evalFields o]
  | .bool _ => rfl
  | .u8 _ => rfl
  | .u16 _ => rfl
  | .u32 _ => rfl
  | .u64 _ => rfl
  | .raw _ => rfl
  | .str _ => rfl

/-- Helper: `eval_eval` over array elements. -/
theorem evalElems_evalElems : ∀ a : List (Meta × Val), evalElems (evalElems a) = evalElems a
  | [] => rfl
  | (_, v) :: t => by
    rw [evalElems, evalElems, eval_eval v, evalElems_evalElems t]

/-- Helper: `eval_eval` over object entries. -/
theorem evalFields_evalFields : ∀ o : List (String × Meta × Val), evalFields (evalFields o) = evalFields o
  | [] => rfl
  | (_, _, v) :: t => by
    rw [evalFields, evalFields, eval_eval v, evalFields_evalFields t]

end

/-- C6: for every value tree `t` (including trees whose thunks produce
further lazy sub-trees), `eval t` contains no `Lazy` variants, and `eval`
is idempotent: `eval (eval t) = eval t`. -/
theorem eval_removes_lazy_and_is_idempotent :
    ∀ t : Val, noLazy (Val.eval t) = true ∧ Val.eval (Val.eval t) = Val.eval t :=
  fun t => ⟨eval_noLazy t, eval_eval t⟩

/-- C10: when the result passed to `Obj::add` is an error, the object is
left completely unchanged (no child pushed, no `Meta.error` recorded) and
the error is returned with the field name pushed onto its path. -/
theorem obj_add_error_leaves_object_unchanged :
    ∀ {α : Type} (o : Obj) (field : String) (e : Error),
      Obj.add o field (Except.error e : Except Error (Meta × Val × α)) =
        (o, Except.error (e.with_index (.str field))) :=
  fun _ _ _ => rfl

/-- C5: `take c n` returns the length-`n` prefix and leaves the cursor at
the remaining suffix: the two views share the backing buffer, are adjacent
and non-overlapping, and their contents concatenate to the original
content; for `n` beyond the length, `take` fails with the "expected n
bytes" error and consumes nothing. -/
theorem take_splits_without_duplication :
    ∀ (b : Bytes) (n : Nat),
      (n ≤ b.len →
        take b n = (⟨b.buf, b.start + n, b.len - n⟩, .ok ⟨b.buf, b.start, n⟩) ∧
        Bytes.content ⟨b.buf, b.start, n⟩ ++ Bytes.content ⟨b.buf, b.start + n, b.len - n⟩
          = b.content ∧
        Bytes.len ⟨b.buf, b.start, n⟩ = n ∧
        Bytes.start ⟨b.buf, b.start, n⟩ + n = Bytes.start ⟨b.buf, b.start + n, b.len - n⟩) ∧
      (b.len < n →
        take b n = (b, .error (Error.new b ("expected " ++ toString n ++ " bytes")))) := by
  intro b n
  constructor
  · intro h
    refine ⟨?_, ?_, rfl, rfl⟩
    · simp [take, try_split_off, Bytes.splitOff, Nat.not_lt.mpr h]
    · simp only [Bytes.content]
      have hd : b.buf.drop (b.start + n) = (b.buf.drop b.start).drop n := by
        rw [List.drop_drop, Nat.add_comm]
      rw [hd, ← List.take_add]
      congr 1
      omega
  · intro h
    simp [take, try_split_off, h]

/-- C5 witness: `take` on the concrete cursor `[1, 2, 3]` with `n = 2`
(success) and `n = 5` (failure). -/
theorem take_splits_without_duplication_witness :
    take ⟨[1, 2, 3], 0, 3⟩ 2 = (⟨[1, 2, 3], 2, 1⟩, .ok ⟨[1, 2, 3], 0, 2⟩) ∧
    take ⟨[1, 2, 3], 0, 3⟩ 5 =
      (⟨[1, 2, 3], 0, 3⟩, .error (Error.new ⟨[1, 2, 3], 0, 3⟩ "expected 5 bytes")) :=
  ⟨((take_splits_without_duplication ⟨[1, 2, 3], 0, 3⟩ 2).1 (by decide)).1,
   (take_splits_without_duplication ⟨[1, 2, 3], 0, 3⟩ 5).2 (by decide)⟩

/-- C3 counterexample: a sub-parser that consumes one byte of `[7, 8, 9]`
and then fails leaves the `Meta`'s span untouched at its placeholder value
`[5, 5]` — `consume` does not set it to the one-byte range the parser
advanced past, contradicting the claim's "both when f returns success and
when f returns an error". -/
theorem consume_error_skips_span_counterexample :
    consume ⟨[7, 8, 9], 0, 3⟩ (Meta.fromBytes ⟨[5, 5], 0, 2⟩)
        (fun b => match take b 1 with
          | (b1, .error e) => (b1, .error e)
          | (b1, .ok _) => take b1 9) =
      (⟨[7, 8, 9], 1, 2⟩, Meta.fromBytes ⟨[5, 5], 0, 2⟩,
        .error (Error.new ⟨[7, 8, 9], 1, 2⟩ "expected 9 bytes")) ∧
    (Meta.fromBytes ⟨[5, 5], 0, 2⟩).bytes ≠ Bytes.truncate ⟨[7, 8, 9], 0, 3⟩ 1 := by
  constructor
  · rfl
  · decide

/-- C3 amended: `consume b m f` returns whatever cursor `f` left and the
result of `f`; the `Meta`'s span is set to exactly the prefix of `b` that
`f` advanced past on success, and is left unchanged on failure (the `?` in
the source propagates before the assignment). -/
theorem consume_sets_span_on_success :
    ∀ {α : Type} (b : Bytes) (m : Meta) (f : Bytes → Bytes × Except Error α)
      (b' : Bytes) (r : Except Error α),
      f b = (b', r) →
      consume b m f =
        (b',
         match r with
         | .ok _ => { m with bytes := b.truncate (b.len - b'.len) }
         | .error _ => m,
         r) ∧
      (Bytes.truncate b (b.len - b'.len)).content
        = b.content.take (b.len - b'.len) := by
  intro α b m f b' r h
  constructor
  · cases r with
    | ok y => simp [consume, consumed, h]
    | error e => simp [consume, consumed, h]
  · simp [Bytes.truncate, Bytes.content, List.take_take, Nat.min_comm]

/-- C3 witness: applying the amended theorem to the concrete cursor
`[7, 8, 9]` and the parser `take 1`. -/
theorem consume_sets_span_on_success_witness :
    consume ⟨[7, 8, 9], 0, 3⟩ (Meta.fromBytes ⟨[5, 5], 0, 2⟩) (fun b => take b 1) =
      (⟨[7, 8, 9], 1, 2⟩, ⟨⟨[7, 8, 9], 0, 1⟩, none, none⟩, .ok ⟨[7, 8, 9], 0, 1⟩) :=
  (consume_sets_span_on_success ⟨[7, 8, 9], 0, 3⟩ (Meta.fromBytes ⟨[5, 5], 0, 2⟩)
    (fun b => take b 1) ⟨[7, 8, 9], 1, 2⟩ (.ok ⟨[7, 8, 9], 0, 1⟩) rfl).1

/-- C4 counterexample: a sub-parser that sets the placeholder's value to
`Bool true` and then fails leaves that value in the tree — the child does
not keep "a defaulted Value" as the claim states. -/
theorem add_mut_failed_child_not_defaulted_counterexample :
    Obj.add_mut ([] : Obj) "x" (Meta.fromBytes ⟨[1], 0, 1⟩)
        (fun m _v => some ((), m, Val.bool true,
          (Except.error (Error.new ⟨[1], 0, 1⟩ "fail") : Except Error Unit))) =
      some ((), [("x",
        { Meta.fromBytes ⟨[1], 0, 1⟩ with
            error := some (Error.new ⟨[1], 0, 1⟩ "fail") },
        Val.bool true)],
        .error ((Error.new ⟨[1], 0, 1⟩ "fail").with_index (.str "x"))) ∧
    Val.bool true ≠ Val.default := by
  refine ⟨rfl, ?_⟩
  intro h
  exact Val.noConfusion h

/-- C4 amended: when the sub-parser given to `Obj::add_mut` fails with `e`,
the placeholder child stays in the object with whatever `Meta` and `Val`
the parser left (the placeholder's value starts out defaulted), the child's
`Meta.error` is set to `e`, and the error is returned with the field name
pushed onto its path; `Arr::add_mut` behaves identically with the element
index as breadcrumb. -/
theorem add_mut_records_error_and_rethrows :
    ∀ {σ α : Type} (o : Obj) (field : String) (m : Meta)
      (f : Meta → Val → Option (σ × Meta × Val × Except Error α))
      (a : Arr) (ma : Meta)
      (g : Meta → Val → Option (σ × Meta × Val × Except Error α))
      (s : σ) (m' : Meta) (v' : Val) (e : Error)
      (s2 : σ) (m2 : Meta) (v2 : Val) (e2 : Error),
      f m Val.default = some (s, m', v', .error e) →
      g ma Val.default = some (s2, m2, v2, .error e2) →
      Obj.add_mut o field m f =
        some (s, o ++ [(field, { m' with error := some e }, v')],
          .error (e.with_index (.str field))) ∧
      Arr.add_mut a ma g =
        some (s2, a ++ [({ m2 with error := some e2 }, v2)],
          .error (e2.with_index (.int a.length))) := by
  intro σ α o field m f a ma g s m' v' e s2 m2 v2 e2 hf hg
  constructor
  · simp [Obj.add_mut, hf]
  · simp [Arr.add_mut, hg]

/-- C4 witness: applying the amended theorem to concrete failing parsers
that leave a partially-built value behind. -/
theorem add_mut_records_error_and_rethrows_witness :
    Obj.add_mut ([] : Obj) "y" (Meta.fromBytes ⟨[2], 0, 1⟩)
        (fun m _v => some (7, m, Val.u8 9,
          (Except.error (Error.new ⟨[2], 0, 1⟩ "e1") : Except Error Nat))) =
      some (7, [("y",
        { Meta.fromBytes ⟨[2], 0, 1⟩ with
            error := some (Error.new ⟨[2], 0, 1⟩ "e1") }, Val.u8 9)],
        .error ((Error.new ⟨[2], 0, 1⟩ "e1").with_index (.str "y"))) ∧
    Arr.add_mut ([] : Arr) (Meta.fromBytes ⟨[3], 0, 1⟩)
        (fun m _v => some (7, m, Val.u8 4,
          (Except.error (Error.new ⟨[3], 0, 1⟩ "e2") : Except Error Nat))) =
      some (7, [({ Meta.fromBytes ⟨[3], 0, 1⟩ with
            error := some (Error.new ⟨[3], 0, 1⟩ "e2") }, Val.u8 4)],
        .error ((Error.new ⟨[3], 0, 1⟩ "e2").with_index (.int 0))) :=
  add_mut_records_error_and_rethrows ([] : Obj) "y" (Meta.fromBytes ⟨[2], 0, 1⟩)
    (fun m _v => some (7, m, Val.u8 9,
      (Except.error (Error.new ⟨[2], 0, 1⟩ "e1") : Except Error Nat)))
    ([] : Arr) (Meta.fromBytes ⟨[3], 0, 1⟩)
    (fun m _v => some (7, m, Val.u8 4,
      (Except.error (Error.new ⟨[3], 0, 1⟩ "e2") : Except Error Nat)))
    7 (Meta.fromBytes ⟨[2], 0, 1⟩) (Val.u8 9) (Error.new ⟨[2], 0, 1⟩ "e1")
    7 (Meta.fromBytes ⟨[3], 0, 1⟩) (Val.u8 4) (Error.new ⟨[3], 0, 1⟩ "e2")
    rfl rfl

/-- Helper: extracting masked bits commutes with the shift. -/
theorem and_shiftLeft_shiftRight (u m k : Nat) :
    (u &&& (m <<< k)) >>> k = (u >>> k) &&& m := by
  apply Nat.eq_of_testBit_eq
  intro i
  simp [Nat.testBit_shiftRight, Nat.testBit_and, Nat.testBit_shiftLeft]

/-- Helper: for widths below a byte the `as u8` narrowing in `mask` is the
identity. -/
theorem mask_eq_of_lt (u off w : Nat) (h : (1 <<< w) - 1 < 256) :
    mask u off w = (u >>> off) &&& ((1 <<< w) - 1) := by
  unfold mask
  rw [and_shiftLeft_shiftRight]
  exact Nat.mod_eq_of_lt (lt_of_le_of_lt Nat.and_le_right h)

/-- Helper: `evalFields` over entries sharing one `Meta`. -/
theorem evalFields_map (sp : Bytes) (l : List (String × Val)) :
    evalFields (l.map (fun p => (p.1, Meta.fromBytes sp, p.2)))
      = l.map (fun p => (p.1, Meta.fromBytes sp, Val.eval p.2)) := by
  induction l with
  | nil => rfl
  | cons hd tl ih =>
    obtain ⟨s, v⟩ := hd
    simp [evalFields, ih]

/-- Helper: forcing the lazy object built by `decode_td`. -/
theorem eval_td_val (sp : Bytes) (entries : List (String × Val)) :
    Val.eval (td_val sp entries)
      = Val.obj (entries.map (fun p => (p.1, Meta.fromBytes sp, Val.eval p.2))) := by
  simp only [td_val, Val.eval]
  rw [evalFields_map]

/-- C7: the DOS time/date bit formulas of the decoder, both in general and
at the claimed edge inputs: forcing the lazy expansion of a 16-bit time `t`
yields `second = ((t >>> 0) &&& 0x1F) * 2`, `minute = (t >>> 5) &&& 0x3F`,
`hour = (t >>> 11) &&& 0x1F`, and of a date `d` yields
`day = (d >>> 0) &&& 0x1F`, `month = (d >>> 5) &&& 0x0F`,
`year = ((d >>> 9) &&& 0x7F) + 1980`; in particular `d = 0x0021` gives
`{day 1, month 1, year 1980}` and `t = 0xBF7D` gives
`{second 58, minute 59, hour 23}`. -/
theorem dos_time_date_expansion :
    ∀ (t d : Nat) (sp : Bytes),
      sec_min_hr t =
        ((t >>> 0) &&& 0x1F, (t >>> 5) &&& 0x3F, (t >>> 11) &&& 0x1F) ∧
      day_month_year d =
        ((d >>> 0) &&& 0x1F, (d >>> 5) &&& 0xF, (d >>> 9) &&& 0x7F) ∧
      Val.eval (td_val sp (time_entries t)) = Val.obj
        [("second", Meta.fromBytes sp, Val.u8 (((t >>> 0) &&& 0x1F) * 2)),
         ("minute", Meta.fromBytes sp, Val.u8 ((t >>> 5) &&& 0x3F)),
         ("hour", Meta.fromBytes sp, Val.u8 ((t >>> 11) &&& 0x1F))] ∧
      Val.eval (td_val sp (date_entries d)) = Val.obj
        [("day", Meta.fromBytes sp, Val.u8 ((d >>> 0) &&& 0x1F)),
         ("month", Meta.fromBytes sp, Val.u8 ((d >>> 5) &&& 0xF)),
         ("year", Meta.fromBytes sp, Val.u16 (((d >>> 9) &&& 0x7F) + 1980))] ∧
      Val.eval (td_val sp (date_entries 0x21)) = Val.obj
        [("day", Meta.fromBytes sp, Val.u8 1),
         ("month", Meta.fromBytes sp, Val.u8 1),
         ("year", Meta.fromBytes sp, Val.u16 1980)] ∧
      Val.eval (td_val sp (time_entries 0xBF7D)) = Val.obj
        [("second", Meta.fromBytes sp, Val.u8 58),
         ("minute", Meta.fromBytes sp, Val.u8 59),
         ("hour", Meta.fromBytes sp, Val.u8 23)] := by
  intro t d sp
  have h5 : ∀ u : Nat, mask u 0 5 = (u >>> 0) &&& 0x1F :=
    fun u => mask_eq_of_lt u 0 5 (by decide)
  have h6 : ∀ u : Nat, mask u 5 6 = (u >>> 5) &&& 0x3F :=
    fun u => mask_eq_of_lt u 5 6 (by decide)
  have h11 : ∀ u : Nat, mask u 11 5 = (u >>> 11) &&& 0x1F :=
    fun u => mask_eq_of_lt u 11 5 (by decide)
  have h54 : ∀ u : Nat, mask u 5 4 = (u >>> 5) &&& 0xF :=
    fun u => mask_eq_of_lt u 5 4 (by decide)
  have h97 : ∀ u : Nat, mask u 9 7 = (u >>> 9) &&& 0x7F :=
    fun u => mask_eq_of_lt u 9 7 (by decide)
  have hsec : ∀ u : Nat, ((u >>> 0) &&& 0x1F) * 2 % 256 = ((u >>> 0) &&& 0x1F) * 2 := by
    intro u
    apply Nat.mod_eq_of_lt
    have : (u >>> 0) &&& 0x1F ≤ 0x1F := Nat.and_le_right
    omega
  have hyr : ∀ u : Nat, (((u >>> 9) &&& 0x7F) + 1980) % 65536 = ((u >>> 9) &&& 0x7F) + 1980 := by
    intro u
    apply Nat.mod_eq_of_lt
    have : (u >>> 9) &&& 0x7F ≤ 0x7F := Nat.and_le_right
    omega
  refine ⟨?_, ?_, ?_, ?_, ?_, ?_⟩
  · simp [sec_min_hr, h5, h6, h11]
  · simp [day_month_year, h5, h54, h97]
  · rw [eval_td_val]
    have hle : t &&& 31 ≤ 31 := @Nat.and_le_right t 31
    have ht : (t &&& 31) * 2 % 256 = (t &&& 31) * 2 := Nat.mod_eq_of_lt (by omega)
    simp [time_entries, sec_min_hr, h5, h6, h11, hsec, ht, Val.eval]
  · rw [eval_td_val]
    have hle : d >>> 9 &&& 127 ≤ 127 := @Nat.and_le_right (d >>> 9) 127
    have hd : ((d >>> 9 &&& 127) + 1980) % 65536 = (d >>> 9 &&& 127) + 1980 :=
      Nat.mod_eq_of_lt (by omega)
    simp [date_entries, day_month_year, h5, h54, h97, hyr, hd, Val.eval]
  · rw [eval_td_val]
    simp [date_entries, day_month_year, Val.eval]
    refine ⟨?_, ?_, ?_⟩ <;> decide
  · rw [eval_td_val]
    simp [time_entries, sec_min_hr, Val.eval]
    refine ⟨?_, ?_, ?_⟩ <;> decide

/-- C1 (code bug): the EOCD search itself scans backwards within the
65,558-byte bound (third conjunct: it finds the signature at its start
index), but when the signature is absent `find` returns `none` and
`decode_eocds` — which calls `Option::unwrap` on that result in the
source — aborts the process (`none` in this model) instead of returning
the claimed "could not find end of central directory" decode error. -/
theorem eocd_search_panics_when_absent :
    find (List.replicate 22 0) END_OF_CENTRAL_DIR_SIG 65558 = none ∧
    decode_eocds [] ⟨List.replicate 22 0, 0, 22⟩ Opts.default = none ∧
    find (List.replicate 10 0 ++ END_OF_CENTRAL_DIR_SIG ++ List.replicate 16 0)
      END_OF_CENTRAL_DIR_SIG 65558 = some 10 := by
  refine ⟨by decide, rfl, by decide⟩

set_option maxRecDepth 100000 in
/-- C8 (code bug): on a TAR entry with declared size `0` the decoder
consumes 1,024 bytes — a full 512-byte block of "data padding" after the
zero-length data, because `padding` is `512 - pos % 512` and never `0`;
the claim's `(512 - s mod 512) mod 512` is `0` for `s = 0`. -/
theorem tar_zero_size_consumes_full_padding_block :
    (Tar.decode_file (tarHdr512 ++ List.replicate 512 0)).map
      (fun x => (x.1.header.size.2, x.2.length, x.1.src.length))
      = some (0, 0, 1024) ∧
    Tar.padding 0 = 512 ∧
    (512 - 0 % 512) % 512 = 0 := by
  refine ⟨by decide, by decide, by decide⟩

set_option maxRecDepth 100000 in
/-- C2 counterexample: on `lfhNoDD` the `data_descriptor` flag (bit 3 of
the flags field, whose raw bytes are `[0, 0]`) is clear and the LFH's
`compressed_size` is `0`, yet the decoder still falls back to the CDR's
size `5`: it records a 5-byte `compressed` child spanning bytes
`[31, 36)` and consumes the whole input, where the claim demands the zero
size be "used as-is" (no payload bytes consumed). -/
theorem lfh_fallback_despite_clear_flag_counterexample :
    lf_run_proj (decode_local_file [] ⟨lfhNoDD, 0, 36⟩ Opts.default cdrCommon5)
      = some (lfhFieldNames, 0, true, some ⟨lfhNoDD, 31, 5⟩) ∧
    Nat.testBit (leVal [0, 0]) 3 = false := by
  refine ⟨by decide, by decide⟩

set_option maxRecDepth 100000 in
/-- C2 amended: the fall-back to the CDR's `compressed_size` happens
exactly when the ZIP64-substituted LFH `compressed_size` is zero,
regardless of the `data_descriptor` flag: the selection function never
inspects the flags, and the concrete runs with the flag clear (`lfhNoDD`)
and set (`lfhDD`) both consume the CDR's 5 payload bytes. -/
theorem lfh_fallback_exactly_when_zero :
    ∀ (z : Option Nat) (l c : Nat),
      lf_compressed_size z l c = (if z.getD l = 0 then c else z.getD l) ∧
      lf_run_proj (decode_local_file [] ⟨lfhNoDD, 0, 36⟩ Opts.default cdrCommon5)
        = some (lfhFieldNames, 0, true, some ⟨lfhNoDD, 31, 5⟩) ∧
      lf_run_proj (decode_local_file [] ⟨lfhDD, 0, 48⟩ Opts.default cdrCommon5)
        = some (lfhFieldNames ++ ["data_indicator"], 0, true,
            some ⟨lfhDD, 31, 5⟩) := by
  intro z l c
  refine ⟨?_, by decide, by decide⟩
  cases hz : z.getD l with
  | zero => simp [lf_compressed_size, hz]
  | succ k => simp [lf_compressed_size, hz]

/-- Helper: `objNames` distributes over append. -/
theorem objNames_append (o l : Obj) :
    objNames (o ++ l) = objNames o ++ objNames l := by
  simp [objNames]

/-- Helper: whatever `Obj.add_mut` returns, the object has gained exactly
one child, named by the given field, at the end. -/
theorem obj_add_mut_shape {σ α : Type} (o : Obj) (field : String) (m : Meta)
    (f : Meta → Val → Option (σ × Meta × Val × Except Error α)) (s : σ)
    (o2 : Obj) (r : Except Error α)
    (h : Obj.add_mut o field m f = some (s, o2, r)) :
    ∃ m2 v2, o2 = o ++ [(field, m2, v2)] := by
  unfold Obj.add_mut at h
  split at h
  · cases h
  · simp only [Option.some.injEq, Prod.mk.injEq] at h
    exact ⟨_, _, h.2.1.symm⟩
  · simp only [Option.some.injEq, Prod.mk.injEq] at h
    exact ⟨_, _, h.2.1.symm⟩

/-- Helper: whatever `Arr.add_mut` returns, the array has gained exactly
one element at the end. -/
theorem arr_add_mut_shape {σ α : Type} (a : Arr) (m : Meta)
    (f : Meta → Val → Option (σ × Meta × Val × Except Error α)) (s : σ)
    (a2 : Arr) (r : Except Error α)
    (h : Arr.add_mut a m f = some (s, a2, r)) :
    ∃ e, a2 = a ++ [e] := by
  unfold Arr.add_mut at h
  split at h
  · cases h
  · simp only [Option.some.injEq, Prod.mk.injEq] at h
    exact ⟨_, h.2.1.symm⟩
  · simp only [Option.some.injEq, Prod.mk.injEq] at h
    exact ⟨_, h.2.1.symm⟩

/-- Helper: a successful CDR loop run appends exactly one array element per
decoded CDR. -/
theorem decode_cdr_loop_length (fuel : Nat) :
    ∀ (cd : Arr) (cds : List CentralDirRecord) (b : Bytes) (opts : Opts)
      (a' : Arr) (b'' : Bytes) (cds' : List CentralDirRecord),
      decode_cdr_loop cd cds b opts fuel = some ((a', b''), .ok cds') →
      a'.length + cds.length = cds'.length + cd.length := by
  induction fuel with
  | zero =>
    intro cd cds b opts a' b'' cds' h
    cases h
  | succ fuel ih =>
    intro cd cds b opts a' b'' cds' h
    unfold decode_cdr_loop at h
    split at h
    · simp only [Option.some.injEq, Prod.mk.injEq, Except.ok.injEq] at h
      obtain ⟨⟨h1, h2⟩, h3⟩ := h
      subst h1
      subst h3
      omega
    · split at h
      · cases h
      · exact absurd h (by simp)
      · rename_i b' cd' cdr heq
        split at h
        · have hlen := ih cd' (cds ++ [cdr]) b' opts a' b'' cds' h
          obtain ⟨e, he⟩ := arr_add_mut_shape _ _ _ _ _ _ heq
          subst he
          simp at hlen
          omega
        · cases h

/-- Helper: a successful local-file loop run appends exactly one array
element per CDR whose start disk matches the archive disk, in CDR order. -/
theorem decode_lf_loop_length :
    ∀ (cdrs : List CentralDirRecord) (a : Arr) (lf : Bytes) (disk : Nat)
      (opts : Opts) (a' : Arr),
      decode_lf_loop a lf cdrs disk opts = some (a', .ok ()) →
      a'.length = a.length
        + (cdrs.filter (fun c => c.disk_nr_start == disk)).length := by
  intro cdrs
  induction cdrs with
  | nil =>
    intro a lf disk opts a' h
    unfold decode_lf_loop at h
    simp only [Option.some.injEq, Prod.mk.injEq] at h
    rw [← h.1]
    simp
  | cons cdr rest ih =>
    intro a lf disk opts a' h
    unfold decode_lf_loop at h
    split at h
    · rename_i hd
      split at h
      · cases h
      · split at h
        · cases h
        · exact absurd h (by simp)
        · rename_i hb a2 hu heq
          have hlen := ih a2 lf disk opts a' h
          obtain ⟨e, he⟩ := arr_add_mut_shape _ _ _ _ _ _ heq
          subst he
          simp [List.filter, hd] at hlen ⊢
          omega
    · rename_i hd
      have hlen := ih a lf disk opts a' h
      simp [List.filter, hd] at hlen ⊢
      omega

/-- Helper: a successful `decode_eocds` run appends to the object either
the EOCD field alone or the EOCD, locator and ZIP64-EOCD fields, in this
order and with these names. -/
theorem decode_eocds_names (o : Obj) (b : Bytes) (opts : Opts) (o' : Obj)
    (b' : Bytes) (eocd : EndOfCentralDirRecord)
    (h : decode_eocds o b opts = some ((o', b'), .ok eocd)) :
    objNames o' = objNames o ++ ["end_of_central_dir_record"] ∨
    objNames o' = objNames o ++ ["end_of_central_dir_record",
      "end_of_central_directory_locator",
      "end_of_central_directory_record_zip64"] := by
  simp only [decode_eocds] at h
  split at h
  · cases h
  · rename_i eocds_abs hfind
    split at h
    · cases h
    · exact absurd h (by simp)
    · rename_i s1 o1 eocd1 heq1
      obtain ⟨m1, v1, ho1⟩ := obj_add_mut_shape _ _ _ _ _ _ _ heq1
      split at h
      · simp only [Option.some.injEq, Prod.mk.injEq, Except.ok.injEq] at h
        left
        rw [← h.1.1, ho1, objNames_append]
        rfl
      · rename_i eocdl_abs hfind2
        split at h
        · cases h
        · exact absurd h (by simp)
        · rename_i s2 o2 off2 heq2
          obtain ⟨m2, v2, ho2⟩ := obj_add_mut_shape _ _ _ _ _ _ _ heq2
          split at h
          · exact absurd h (by simp)
          · rename_i slice64 hslice
            split at h
            · cases h
            · rename_i s3 o3 r3 heq3
              obtain ⟨m3, v3, ho3⟩ := obj_add_mut_shape _ _ _ _ _ _ _ heq3
              simp only [Option.some.injEq, Prod.mk.injEq] at h
              right
              rw [← h.1.1, ho3, ho2, ho1]
              simp [objNames_append]
              rfl

/-- C9 amended: for every input on which `decode_zip` (started on an empty
root) succeeds, the root's top-level fields are, in order:
`end_of_central_dir_record` (note the name in the source), then optionally
`end_of_central_directory_locator` and `end_of_central_directory_record_zip64`,
then `central_directories` — an array with exactly one entry per decoded
CDR — then `local_files` — an array with exactly one entry per CDR whose
(ZIP64-substituted) start disk equals the archive's disk number, in CDR
order. -/
theorem zip_root_field_order (b : Bytes) (opts : Opts) (o' : Obj) (b' : Bytes)
    (h : decode_zip [] b opts = some ((o', b'), .ok ())) :
    ∃ (pre : Obj) (b1 : Bytes) (eocd : EndOfCentralDirRecord) (mc ml : Meta)
      (ac al : Arr) (cds : List CentralDirRecord) (cdSlice lfSlice b2 : Bytes),
      decode_eocds [] b opts = some ((pre, b1), .ok eocd) ∧
      (objNames pre = ["end_of_central_dir_record"] ∨
       objNames pre = ["end_of_central_dir_record",
         "end_of_central_directory_locator",
         "end_of_central_directory_record_zip64"]) ∧
      o' = pre ++ [("central_directories", mc, Val.arr ac),
                   ("local_files", ml, Val.arr al)] ∧
      try_slice b1 eocd.cd_range.1 eocd.cd_range.2 = .ok cdSlice ∧
      decode_cdr_loop [] [] cdSlice opts (cdSlice.len + 1)
        = some ((ac, b2), .ok cds) ∧
      ac.length = cds.length ∧
      try_slice b1 0 eocd.cd_range.1 = .ok lfSlice ∧
      decode_lf_loop [] lfSlice cds eocd.disk_nr opts = some (al, .ok ()) ∧
      al.length = (cds.filter (fun c => c.disk_nr_start == eocd.disk_nr)).length := by
  simp only [decode_zip, zbind] at h
  split at h
  · cases h
  · exact absurd h (by simp)
  · rename_i root1 b1 eocd heocds
    split at h
    · exact absurd h (by simp)
    · rename_i cdSlice hts
      split at h
      · cases h
      · exact absurd h (by simp)
      · rename_i s2 root2 cd heq2
        split at h
        · exact absurd h (by simp)
        · rename_i lfSlice htl
          split at h
          · cases h
          · rename_i s3 root3 r3 heq3
            simp only [Option.some.injEq, Prod.mk.injEq] at h
            obtain ⟨⟨ho, hb⟩, hr⟩ := h
            subst hr
            rcases hcl : decode_cdr_loop [] [] cdSlice opts (cdSlice.len + 1)
              with _ | ⟨⟨ac, b2⟩, r2⟩
            · rw [Obj.add_mut] at heq2
              simp only [hcl] at heq2
              cases heq2
            · simp only [Obj.add_mut, hcl] at heq2
              cases r2 with
              | error e2 =>
                simp only [Option.some.injEq, Prod.mk.injEq] at heq2
                exact absurd heq2.2.2 (by simp)
              | ok cds2 =>
                simp only [Option.some.injEq, Prod.mk.injEq, Except.ok.injEq]
                  at heq2
                obtain ⟨hs2, hroot2, hcd⟩ := heq2
                rcases hll : decode_lf_loop [] lfSlice cd eocd.disk_nr opts
                  with _ | ⟨al2, rl⟩
                · rw [Obj.add_mut] at heq3
                  simp only [hll] at heq3
                  cases heq3
                · simp only [Obj.add_mut, hll] at heq3
                  cases rl with
                  | error el =>
                    simp only [Option.some.injEq, Prod.mk.injEq] at heq3
                    exact absurd heq3.2.2 (by simp)
                  | ok ul =>
                    simp only [Option.some.injEq, Prod.mk.injEq] at heq3
                    obtain ⟨hs3, hroot3, hrl⟩ := heq3
                    obtain ⟨⟩ := ul
                    refine ⟨root1, b1, eocd, Meta.fromBytes cdSlice,
                      Meta.fromBytes lfSlice, ac, al2, cds2, cdSlice, lfSlice,
                      b2, heocds, ?_, ?_, hts, hcl, ?_, htl, ?_, ?_⟩
                    · have := decode_eocds_names [] b opts root1 b1 eocd heocds
                      simpa [objNames] using this
                    · rw [← ho, ← hroot3, ← hroot2]
                      simp
                    · have := decode_cdr_loop_length (cdSlice.len + 1) [] []
                        cdSlice opts ac b2 cds2 hcl
                      simpa using this
                    · rw [hcd]
                      exact hll
                    · rw [hcd]
                      have := decode_lf_loop_length cd [] lfSlice eocd.disk_nr
                        opts al2 hll
                      simpa using this

/-- C9 counterexample: on the minimal 22-byte ZIP the decode succeeds and
the first root field is named `end_of_central_dir_record`, not the
`end_of_central_directory_record` stated by the claim. -/
theorem zip_root_first_field_misnamed_counterexample :
    zip_run_proj (decode_zip [] emptyZipBytes Opts.default)
      = some (["end_of_central_dir_record", "central_directories",
               "local_files"], true) ∧
    ("end_of_central_dir_record" : String)
      ≠ "end_of_central_directory_record" := by
  refine ⟨by decide, by decide⟩

/-- C9 witness: the field-order theorem applied to the concrete minimal
22-byte ZIP. -/
theorem zip_root_field_order_witness :
    ∃ (o' : Obj) (b' : Bytes),
      decode_zip [] emptyZipBytes Opts.default = some ((o', b'), .ok ()) ∧
      (objNames o' = ["end_of_central_dir_record", "central_directories",
         "local_files"] ∨
       objNames o' = ["end_of_central_dir_record",
         "end_of_central_directory_locator",
         "end_of_central_directory_record_zip64", "central_directories",
         "local_files"]) := by
  have hok : zipRunOk (decode_zip [] emptyZipBytes Opts.default) = true := by
    decide
  cases hh : decode_zip [] emptyZipBytes Opts.default with
  | none =>
    rw [hh] at hok
    simp [zipRunOk] at hok
  | some x =>
    obtain ⟨⟨o', b'⟩, r⟩ := x
    cases r with
    | error e =>
      rw [hh] at hok
      simp [zipRunOk] at hok
    | ok u =>
      obtain ⟨⟩ := u
      obtain ⟨pre, b1, eocd, mc, ml, ac, al, cds, cdS, lfS, b2, _, hnames,
        ho, _, _, _, _, _, _⟩ :=
        zip_root_field_order emptyZipBytes Opts.default o' b' hh
      refine ⟨o', b', rfl, ?_⟩
      rcases hnames with h1 | h1
      · left
        rw [ho, objNames_append, h1]
        rfl
      · right
        rw [ho, objNames_append, h1]
        rfl
